import Mathlib

/-!
Shallow embedding of the scheduling substrate of this repository:

* `src/bthread/work_stealing_queue.h` — the Chase–Lev work-stealing deque
  `bthread::WorkStealingQueue<T>`.  The C++ class holds two unsigned
  counters `_bottom` and `_top` (atomics), a fixed `_capacity` and a raw
  ring buffer `_buffer`.  Here the state is a plain record and every
  member function becomes a state-passing Lean function.  Atomic loads
  and stores collapse to plain reads/writes because the theorems below
  are about sequential executions (one operation runs to completion
  before the next starts): under that assumption the re-read of `_top`
  inside `pop` returns the same value as the first read, the re-read of
  `_bottom` inside `steal` returns the same value, the `seq_cst` fences
  are no-ops, and every `compare_exchange_strong` succeeds (nobody else
  moved the counter).  The branch structure of the source is kept intact.
  The C++ counters are `size_t`; they are modelled as `Nat`, following
  the documented intent that counter wraparound never occurs during the
  system's lifetime.  The `NULL` buffer of a never-initialized queue is
  modelled by leaving the slot list arbitrary and proving the results of
  all operations independent of it.

* `src/bthread/context.h` — only the declarations of
  `bthread_make_fcontext` / `bthread_jump_fcontext` appear in the
  sources (the per-architecture assembly bodies are not part of this
  tree), so the context-switch rendezvous is modelled from the spec at
  the end of this file.
-/

/-- State of `bthread::WorkStealingQueue<T>`: the members `_bottom`,
`_capacity`, `_buffer` and `_top` of the C++ class, in declaration
order.  The raw array `_buffer` becomes a `List α`; its allocated length
is tracked separately from `capacity` so that the never-initialized
(`NULL`-buffer) state is representable. -/
structure WorkStealingQueue (α : Type) where
  bottom : Nat
  capacity : Nat
  buffer : List α
  top : Nat
  deriving DecidableEq

/-- The default constructor `WorkStealingQueue()`:
`_bottom = 1, _capacity = 0, _buffer = NULL, _top = 1`. -/
def WorkStealingQueue.new (α : Type) : WorkStealingQueue α :=
  { bottom := 1, capacity := 0, buffer := [], top := 1 }

/-- `int WorkStealingQueue::init(size_t capacity)`.  Returns `-1` and
leaves the state untouched if `_capacity != 0` (already initialized), if
`capacity == 0`, or if `capacity & (capacity - 1)` is non-zero (not a
power of two); otherwise allocates the ring (`new T[capacity]`, modelled
as a list of default values — allocation is assumed to succeed) and
records the capacity, returning `0`. -/
def WorkStealingQueue.init {α : Type} [Inhabited α] (q : WorkStealingQueue α)
    (capacity : Nat) : Int × WorkStealingQueue α :=
  if q.capacity ≠ 0 then (-1, q)
  else if capacity = 0 then (-1, q)
  else if capacity &&& (capacity - 1) ≠ 0 then (-1, q)
  else (0, { q with buffer := List.replicate capacity default, capacity := capacity })

/-- `bool WorkStealingQueue::push(const T& x)`: load `b = _bottom`,
`t = _top`; if `b >= t + _capacity` the queue is full and `false` is
returned; otherwise `_buffer[b & (_capacity - 1)] = x` and
`_bottom = b + 1`. -/
def WorkStealingQueue.push {α : Type} (q : WorkStealingQueue α) (x : α) :
    Bool × WorkStealingQueue α :=
  let b := q.bottom
  let t := q.top
  if b ≥ t + q.capacity then
    (false, q)
  else
    (true, { q with buffer := q.buffer.set (b &&& (q.capacity - 1)) x,
                    bottom := b + 1 })

/-- `bool WorkStealingQueue::pop(T* val)`: load `b = _bottom`,
`t = _top`; if `t >= b` return `false`; otherwise store
`_bottom = b - 1`, fence, re-read `_top` (sequentially the same value),
and either give up and restore `_bottom` (`t > newb`), take the item
directly (`t != newb`, more than one item left), or take the last item
through the CAS on `_top` — which, sequentially, always succeeds — and
restore `_bottom = b`. -/
def WorkStealingQueue.pop {α : Type} [Inhabited α] (q : WorkStealingQueue α) :
    Option α × WorkStealingQueue α :=
  let b := q.bottom
  let t := q.top
  if t ≥ b then
    (none, q)
  else
    let newb := b - 1
    let q1 := { q with bottom := newb }
    let t2 := q1.top
    if t2 > newb then
      (none, { q1 with bottom := b })
    else
      let v := q1.buffer.getD (newb &&& (q1.capacity - 1)) default
      if t2 ≠ newb then
        (some v, q1)
      else
        (some v, { q1 with top := t2 + 1, bottom := b })

/-- `bool WorkStealingQueue::steal(T* val)`: load `t = _top`,
`b = _bottom`; if `t >= b` return `false`; otherwise the do-while body
re-reads `_bottom` under the fence (sequentially the same value),
re-checks emptiness, reads `_buffer[t & (_capacity - 1)]` and CASes
`_top` from `t` to `t + 1` — sequentially the CAS succeeds on the first
iteration, so the loop runs once. -/
def WorkStealingQueue.steal {α : Type} [Inhabited α] (q : WorkStealingQueue α) :
    Option α × WorkStealingQueue α :=
  let t := q.top
  let b := q.bottom
  if t ≥ b then
    (none, q)
  else
    let b2 := q.bottom
    if t ≥ b2 then
      (none, q)
    else
      (some (q.buffer.getD (t &&& (q.capacity - 1)) default),
       { q with top := t + 1 })

/-- `size_t WorkStealingQueue::volatile_size()`: load `b = _bottom`,
`t = _top`, return `b <= t ? 0 : (b - t)`. -/
def WorkStealingQueue.volatile_size {α : Type} (q : WorkStealingQueue α) : Nat :=
  let b := q.bottom
  let t := q.top
  if b ≤ t then 0 else b - t

/-- Counter invariant of §3 of the spec: `bottom ≥ top` and
`bottom − top ≤ capacity`. -/
def WorkStealingQueue.CounterInv {α : Type} (q : WorkStealingQueue α) : Prop :=
  q.top ≤ q.bottom ∧ q.bottom - q.top ≤ q.capacity

/- Arithmetic facts about the power-of-two mask used by the ring. -/

/-- A number whose bitwise AND with its predecessor vanishes is a power
of two (the converse of the `capacity & (capacity - 1)` check in
`init`). -/
theorem pow2_of_and_pred_eq_zero : ∀ c : Nat, c ≠ 0 → c &&& (c - 1) = 0 → ∃ k, c = 2 ^ k := by
  intro c
  induction c using Nat.strong_induction_on with
  | _ c ih =>
    intro hne h
    rcases Nat.even_or_odd c with he | ho
    · obtain ⟨d, hd⟩ := he
      have hd2 : c = 2 * d := by omega
      have hdne : d ≠ 0 := by omega
      have hdiv : (c &&& (c - 1)) / 2 = (c / 2) &&& ((c - 1) / 2) := Nat.and_div_two
      have h1 : (c / 2) &&& ((c - 1) / 2) = 0 := by rw [← hdiv, h]
      have h2 : c / 2 = d := by omega
      have h3 : (c - 1) / 2 = d - 1 := by omega
      rw [h2, h3] at h1
      obtain ⟨k, hk⟩ := ih d (by omega) hdne h1
      exact ⟨k + 1, by rw [hd2, hk, pow_succ]; ring⟩
    · obtain ⟨m, hm⟩ := ho
      rcases Nat.lt_or_ge c 2 with hc1 | hc2
      · exact ⟨0, by omega⟩
      · exfalso
        have hdiv : (c &&& (c - 1)) / 2 = (c / 2) &&& ((c - 1) / 2) := Nat.and_div_two
        have h1 : (c / 2) &&& ((c - 1) / 2) = 0 := by rw [← hdiv, h]
        have h3 : (c - 1) / 2 = c / 2 := by omega
        rw [h3, Nat.and_self] at h1
        omega

/-- A power of two passes the `capacity & (capacity - 1)` check. -/
theorem and_pred_pow2 (k : Nat) : 2 ^ k &&& (2 ^ k - 1) = 0 := by
  simp

/-- Consecutive indices land in distinct ring slots once the capacity is
at least 2. -/
theorem succ_mod_ne {c : Nat} (h : 2 ≤ c) (n : Nat) : (n + 1) % c ≠ n % c := by
  intro heq
  have hmod : Nat.ModEq c n (n + 1) := heq.symm
  have hdvd : c ∣ (n + 1 - n) := (Nat.modEq_iff_dvd' (by omega)).mp hmod
  have := Nat.le_of_dvd (by omega) hdvd
  omega

/- List lemmas for the ring buffer. -/

/-- Reading back the slot just written. -/
theorem getD_set_self {α : Type} :
    ∀ (l : List α) (i : Nat) (x d : α), i < l.length → (l.set i x).getD i d = x
  | _ :: _, 0, _, _, _ => rfl
  | _ :: l, i + 1, x, d, h => getD_set_self l i x d (by simpa using h)

/-- Writing one slot leaves every other slot unchanged. -/
theorem getD_set_ne {α : Type} :
    ∀ (l : List α) (i j : Nat) (x d : α), i ≠ j → (l.set i x).getD j d = l.getD j d
  | [], _, _, _, _, _ => by simp
  | _ :: _, 0, 0, _, _, h => absurd rfl h
  | _ :: _, 0, _ + 1, _, _, _ => rfl
  | _ :: _, _ + 1, 0, _, _, _ => rfl
  | _ :: l, i + 1, j + 1, x, d, h =>
      getD_set_ne l i j x d (fun hij => h (by omega))

/- Branch characterizations of the queue operations (sequential). -/

/-- Full queue: `push` fails and changes nothing. -/
theorem push_full {α : Type} (q : WorkStealingQueue α) (x : α)
    (h : q.top + q.capacity ≤ q.bottom) : q.push x = (false, q) := by
  simp only [WorkStealingQueue.push]
  rw [if_pos (by omega)]

/-- Non-full queue: `push` writes slot `bottom & (capacity - 1)` and
bumps `bottom`. -/
theorem push_ok {α : Type} (q : WorkStealingQueue α) (x : α)
    (h : q.bottom < q.top + q.capacity) :
    q.push x = (true, { q with buffer := q.buffer.set (q.bottom &&& (q.capacity - 1)) x,
                               bottom := q.bottom + 1 }) := by
  simp only [WorkStealingQueue.push]
  rw [if_neg (by omega)]

/-- Empty queue: `pop` fails and changes nothing. -/
theorem pop_empty {α : Type} [Inhabited α] (q : WorkStealingQueue α)
    (h : q.bottom ≤ q.top) : q.pop = (none, q) := by
  simp only [WorkStealingQueue.pop]
  rw [if_pos (by omega)]

/-- More than one item: `pop` takes slot `(bottom - 1) & (capacity - 1)`
and decrements `bottom`. -/
theorem pop_multi {α : Type} [Inhabited α] (q : WorkStealingQueue α)
    (h : q.top + 1 < q.bottom) :
    q.pop = (some (q.buffer.getD ((q.bottom - 1) &&& (q.capacity - 1)) default),
             { q with bottom := q.bottom - 1 }) := by
  simp only [WorkStealingQueue.pop]
  rw [if_neg (by omega), if_neg (by omega), if_pos (by omega)]

/-- Exactly one item: `pop` takes it through the (sequentially always
successful) CAS, advances `top` and restores `bottom`. -/
theorem pop_single {α : Type} [Inhabited α] (q : WorkStealingQueue α)
    (h : q.top + 1 = q.bottom) :
    q.pop = (some (q.buffer.getD ((q.bottom - 1) &&& (q.capacity - 1)) default),
             { q with top := q.top + 1 }) := by
  simp only [WorkStealingQueue.pop]
  rw [if_neg (by omega), if_neg (by omega), if_neg (by omega)]

/-- Empty queue: `steal` fails and changes nothing. -/
theorem steal_empty {α : Type} [Inhabited α] (q : WorkStealingQueue α)
    (h : q.bottom ≤ q.top) : q.steal = (none, q) := by
  simp only [WorkStealingQueue.steal]
  rw [if_pos (by omega)]

/-- Non-empty queue: `steal` takes slot `top & (capacity - 1)` and
advances `top`. -/
theorem steal_ok {α : Type} [Inhabited α] (q : WorkStealingQueue α)
    (h : q.top < q.bottom) :
    q.steal = (some (q.buffer.getD (q.top &&& (q.capacity - 1)) default),
               { q with top := q.top + 1 }) := by
  simp only [WorkStealingQueue.steal]
  rw [if_neg (by omega), if_neg (by omega)]

/- The same characterizations with the mask rewritten as `mod`, valid
for the power-of-two capacities that `init` enforces. -/

/-- `push` into a non-full power-of-two ring writes slot
`bottom % capacity`. -/
theorem push_ok_mod {α : Type} {k : Nat} (q : WorkStealingQueue α) (x : α)
    (hk : q.capacity = 2 ^ k) (h : q.bottom < q.top + q.capacity) :
    q.push x = (true, { q with buffer := q.buffer.set (q.bottom % q.capacity) x,
                               bottom := q.bottom + 1 }) := by
  rw [push_ok q x h, hk, Nat.and_pow_two_sub_one_eq_mod]

/-- Multi-item `pop` from a power-of-two ring reads slot
`(bottom - 1) % capacity`. -/
theorem pop_multi_mod {α : Type} {k : Nat} [Inhabited α] (q : WorkStealingQueue α)
    (hk : q.capacity = 2 ^ k) (h : q.top + 1 < q.bottom) :
    q.pop = (some (q.buffer.getD ((q.bottom - 1) % q.capacity) default),
             { q with bottom := q.bottom - 1 }) := by
  rw [pop_multi q h, hk, Nat.and_pow_two_sub_one_eq_mod]

/-- Last-item `pop` from a power-of-two ring reads slot
`(bottom - 1) % capacity`. -/
theorem pop_single_mod {α : Type} {k : Nat} [Inhabited α] (q : WorkStealingQueue α)
    (hk : q.capacity = 2 ^ k) (h : q.top + 1 = q.bottom) :
    q.pop = (some (q.buffer.getD ((q.bottom - 1) % q.capacity) default),
             { q with top := q.top + 1 }) := by
  rw [pop_single q h, hk, Nat.and_pow_two_sub_one_eq_mod]

/-- `steal` from a non-empty power-of-two ring reads slot
`top % capacity`. -/
theorem steal_ok_mod {α : Type} {k : Nat} [Inhabited α] (q : WorkStealingQueue α)
    (hk : q.capacity = 2 ^ k) (h : q.top < q.bottom) :
    q.steal = (some (q.buffer.getD (q.top % q.capacity) default),
               { q with top := q.top + 1 }) := by
  rw [steal_ok q h, hk, Nat.and_pow_two_sub_one_eq_mod]

/-- Claim C1: on an initialized queue in a sequential execution, `pop`
returns `false` and leaves `bottom`, `top` and the buffer unchanged when
the queue is empty (`top ≥ bottom`); with more than one item it returns
`true` with the item in slot `(bottom - 1) % capacity` and decrements
`bottom`; with exactly one item it returns `true` with that item,
advances `top` by one and restores `bottom`, leaving the queue empty. -/
theorem wsq_pop_cases {α : Type} [Inhabited α] (q : WorkStealingQueue α)
    (hcap : ∃ k, q.capacity = 2 ^ k) :
    (q.bottom ≤ q.top → q.pop = (none, q)) ∧
    (q.top + 1 < q.bottom →
      q.pop = (some (q.buffer.getD ((q.bottom - 1) % q.capacity) default),
               { q with bottom := q.bottom - 1 })) ∧
    (q.top + 1 = q.bottom →
      q.pop = (some (q.buffer.getD ((q.bottom - 1) % q.capacity) default),
               { q with top := q.top + 1 }) ∧
      (q.pop).2.volatile_size = 0) := by
  obtain ⟨k, hk⟩ := hcap
  refine ⟨fun h => pop_empty q h, fun h => pop_multi_mod q hk h, fun h => ?_⟩
  rw [pop_single_mod q hk h]
  refine ⟨rfl, ?_⟩
  simp only [WorkStealingQueue.volatile_size]
  rw [if_pos (by omega)]

/-- Witness for C1: a concrete multi-item pop. -/
theorem wsq_pop_cases_witness :
    WorkStealingQueue.pop (⟨3, 2, [10, 20], 1⟩ : WorkStealingQueue Nat) =
      (some 10, ⟨2, 2, [10, 20], 1⟩) := by
  have h := (wsq_pop_cases (⟨3, 2, [10, 20], 1⟩ : WorkStealingQueue Nat) ⟨1, rfl⟩).2.1
    (by decide)
  rw [h]
  decide

/-- Claim C2: `push x` returns `false` and leaves `bottom`, `top` and
every buffer slot unchanged when `bottom ≥ top + capacity` (full);
otherwise it writes `x` into slot `bottom % capacity`, increments
`bottom`, leaves `top` and all other slots unchanged, and returns
`true`. -/
theorem wsq_push_cases {α : Type} [Inhabited α] (q : WorkStealingQueue α) (x : α)
    (hcap : ∃ k, q.capacity = 2 ^ k) :
    (q.top + q.capacity ≤ q.bottom → q.push x = (false, q)) ∧
    (q.bottom < q.top + q.capacity →
      q.push x = (true, { q with buffer := q.buffer.set (q.bottom % q.capacity) x,
                                 bottom := q.bottom + 1 }) ∧
      ((q.push x).2.top = q.top ∧
       ∀ i, i ≠ q.bottom % q.capacity →
         ((q.push x).2).buffer.getD i default = q.buffer.getD i default)) := by
  obtain ⟨k, hk⟩ := hcap
  refine ⟨fun h => push_full q x h, fun h => ?_⟩
  have hpush := push_ok_mod q x hk h
  refine ⟨hpush, ?_, fun i hi => ?_⟩
  · rw [hpush]
  · rw [hpush]
    exact getD_set_ne q.buffer (q.bottom % q.capacity) i x default (fun he => hi he.symm)

/-- Witness for C2: a concrete successful push and a concrete full-queue
failure. -/
theorem wsq_push_cases_witness :
    WorkStealingQueue.push (⟨2, 2, [5, 6], 1⟩ : WorkStealingQueue Nat) 9 =
      (true, ⟨3, 2, [9, 6], 1⟩) ∧
    WorkStealingQueue.push (⟨3, 2, [5, 6], 1⟩ : WorkStealingQueue Nat) 9 =
      (false, ⟨3, 2, [5, 6], 1⟩) := by
  constructor
  · have h := ((wsq_push_cases (⟨2, 2, [5, 6], 1⟩ : WorkStealingQueue Nat) 9
      ⟨1, rfl⟩).2 (by decide)).1
    rw [h]
    decide
  · exact (wsq_push_cases (⟨3, 2, [5, 6], 1⟩ : WorkStealingQueue Nat) 9 ⟨1, rfl⟩).1
      (by decide)

/-- Claim C3: from an empty initialized queue of capacity at least 2,
after `push a; push b` the owner's `pop` returns `b` (LIFO) while a
`steal` instead returns `a` (FIFO); in each case the other item is still
in the queue (a further `pop` returns it).  An empty initialized queue
is exactly a state `⟨B, c, buf, B⟩` with `c` a power of two and `buf`
the allocated ring. -/
theorem wsq_lifo_fifo {α : Type} [Inhabited α] (B c : Nat) (buf : List α) (a b : α)
    (hcap : ∃ k, c = 2 ^ k) (hc : 2 ≤ c) (hlen : buf.length = c) :
    ((WorkStealingQueue.mk B c buf B).push a).1 = true ∧
    (((WorkStealingQueue.mk B c buf B).push a).2.push b).1 = true ∧
    ((((WorkStealingQueue.mk B c buf B).push a).2.push b).2.pop).1 = some b ∧
    (((((WorkStealingQueue.mk B c buf B).push a).2.push b).2.pop).2.pop).1 = some a ∧
    ((((WorkStealingQueue.mk B c buf B).push a).2.push b).2.steal).1 = some a ∧
    (((((WorkStealingQueue.mk B c buf B).push a).2.push b).2.steal).2.pop).1 = some b := by
  obtain ⟨k, hk⟩ := hcap
  have hc0 : 0 < c := by omega
  have e1 : (WorkStealingQueue.mk B c buf B).push a =
      (true, WorkStealingQueue.mk (B + 1) c (buf.set (B % c) a) B) := by
    rw [push_ok_mod (WorkStealingQueue.mk B c buf B) a hk (show B < B + c by omega)]
  have e2 : (WorkStealingQueue.mk (B + 1) c (buf.set (B % c) a) B).push b =
      (true, WorkStealingQueue.mk (B + 2) c
        ((buf.set (B % c) a).set ((B + 1) % c) b) B) := by
    rw [push_ok_mod (WorkStealingQueue.mk (B + 1) c (buf.set (B % c) a) B) b hk
      (show B + 1 < B + c by omega)]
  have e3 : (WorkStealingQueue.mk (B + 2) c
      ((buf.set (B % c) a).set ((B + 1) % c) b) B).pop =
      (some (((buf.set (B % c) a).set ((B + 1) % c) b).getD ((B + 1) % c) default),
       WorkStealingQueue.mk (B + 1) c ((buf.set (B % c) a).set ((B + 1) % c) b) B) := by
    rw [pop_multi_mod (WorkStealingQueue.mk (B + 2) c
      ((buf.set (B % c) a).set ((B + 1) % c) b) B) hk (show B + 1 < B + 2 by omega)]
    rfl
  have e4 : (WorkStealingQueue.mk (B + 1) c
      ((buf.set (B % c) a).set ((B + 1) % c) b) B).pop =
      (some (((buf.set (B % c) a).set ((B + 1) % c) b).getD (B % c) default),
       WorkStealingQueue.mk (B + 1) c ((buf.set (B % c) a).set ((B + 1) % c) b) (B + 1)) := by
    rw [pop_single_mod (WorkStealingQueue.mk (B + 1) c
      ((buf.set (B % c) a).set ((B + 1) % c) b) B) hk (show B + 1 = B + 1 from rfl)]
    rfl
  have e5 : (WorkStealingQueue.mk (B + 2) c
      ((buf.set (B % c) a).set ((B + 1) % c) b) B).steal =
      (some (((buf.set (B % c) a).set ((B + 1) % c) b).getD (B % c) default),
       WorkStealingQueue.mk (B + 2) c ((buf.set (B % c) a).set ((B + 1) % c) b) (B + 1)) := by
    rw [steal_ok_mod (WorkStealingQueue.mk (B + 2) c
      ((buf.set (B % c) a).set ((B + 1) % c) b) B) hk (show B < B + 2 by omega)]
  have e6 : (WorkStealingQueue.mk (B + 2) c
      ((buf.set (B % c) a).set ((B + 1) % c) b) (B + 1)).pop =
      (some (((buf.set (B % c) a).set ((B + 1) % c) b).getD ((B + 1) % c) default),
       WorkStealingQueue.mk (B + 2) c ((buf.set (B % c) a).set ((B + 1) % c) b) (B + 2)) := by
    rw [pop_single_mod (WorkStealingQueue.mk (B + 2) c
      ((buf.set (B % c) a).set ((B + 1) % c) b) (B + 1)) hk (show B + 1 + 1 = B + 2 from rfl)]
    rfl
  have hv2 : ((buf.set (B % c) a).set ((B + 1) % c) b).getD ((B + 1) % c) default = b := by
    apply getD_set_self
    rw [List.length_set, hlen]
    exact Nat.mod_lt _ hc0
  have hv1 : ((buf.set (B % c) a).set ((B + 1) % c) b).getD (B % c) default = a := by
    rw [getD_set_ne _ _ _ _ _ (succ_mod_ne hc B)]
    apply getD_set_self
    rw [hlen]
    exact Nat.mod_lt _ hc0
  simp only [e1, e2, e3, e4, e5, e6, hv1, hv2]
  exact ⟨trivial, trivial, trivial, trivial, trivial, trivial⟩

/-- Witness for C3: the concrete scenario on a fresh capacity-2 queue. -/
theorem wsq_lifo_fifo_witness :
    ((WorkStealingQueue.mk 1 2 [0, 0] 1).push 10).1 = true ∧
    (((WorkStealingQueue.mk 1 2 [0, 0] 1).push 10).2.push 20).1 = true ∧
    ((((WorkStealingQueue.mk 1 2 [0, 0] 1).push 10).2.push 20).2.pop).1 = some 20 ∧
    (((((WorkStealingQueue.mk 1 2 [0, 0] 1).push 10).2.push 20).2.pop).2.pop).1 = some 10 ∧
    ((((WorkStealingQueue.mk 1 2 [0, 0] 1).push 10).2.push 20).2.steal).1 = some 10 ∧
    (((((WorkStealingQueue.mk 1 2 [0, 0] 1).push 10).2.push 20).2.steal).2.pop).1 = some 20 :=
  wsq_lifo_fifo 1 2 [0, 0] 10 20 ⟨1, rfl⟩ (by decide) rfl

/-- Three is not a power of two. -/
theorem three_not_pow2 : ¬ ∃ k, (3 : Nat) = 2 ^ k := by
  rintro ⟨k, hk⟩
  match k, hk with
  | 0, h => simp at h
  | 1, h => simp at h
  | k + 2, h =>
    have h1 : 2 ^ (k + 2) = 2 ^ k * 2 * 2 := by rw [pow_succ, pow_succ]
    have h2 : 1 ≤ 2 ^ k := Nat.one_le_two_pow
    omega

/-- Claim C4: `init c` fails with `-1` and leaves the state unchanged
exactly when the queue is already initialized (`capacity ≠ 0`), `c = 0`,
or `c` is not a power of two; otherwise it succeeds, allocates the ring
and sets the capacity to `c`, which no later `push`/`pop`/`steal` ever
changes. -/
theorem wsq_init_cases {α : Type} [Inhabited α] (q : WorkStealingQueue α) (c : Nat)
    (x : α) :
    ((q.capacity ≠ 0 ∨ c = 0 ∨ ¬ ∃ k, c = 2 ^ k) → q.init c = (-1, q)) ∧
    (q.capacity = 0 → c ≠ 0 → (∃ k, c = 2 ^ k) →
      q.init c = (0, { q with buffer := List.replicate c default, capacity := c })) ∧
    (((q.push x).2).capacity = q.capacity ∧ ((q.pop).2).capacity = q.capacity ∧
     ((q.steal).2).capacity = q.capacity) := by
  refine ⟨?_, ?_, ?_, ?_, ?_⟩
  · intro h
    simp only [WorkStealingQueue.init]
    by_cases h1 : q.capacity ≠ 0
    · rw [if_pos h1]
    · rw [if_neg h1]
      by_cases h2 : c = 0
      · rw [if_pos h2]
      · rw [if_neg h2]
        have h3 : ¬ ∃ k, c = 2 ^ k := by tauto
        have h4 : c &&& (c - 1) ≠ 0 := fun hz => h3 (pow2_of_and_pred_eq_zero c h2 hz)
        rw [if_pos h4]
  · rintro h1 h2 ⟨k, hk⟩
    simp only [WorkStealingQueue.init]
    rw [if_neg (not_not_intro h1), if_neg h2,
      if_neg (not_not_intro (by rw [hk]; exact and_pred_pow2 k))]
  · rcases Nat.lt_or_ge q.bottom (q.top + q.capacity) with h | h
    · rw [push_ok q x h]
    · rw [push_full q x h]
  · rcases Nat.lt_or_ge q.top q.bottom with h | h
    · rcases Nat.lt_or_ge (q.top + 1) q.bottom with h2 | h2
      · rw [pop_multi q h2]
      · rw [pop_single q (by omega)]
    · rw [pop_empty q (by omega)]
  · rcases Nat.lt_or_ge q.top q.bottom with h | h
    · rw [steal_ok q h]
    · rw [steal_empty q (by omega)]

/-- Witness for C4: a successful `init 8` on a fresh queue, a failing
second `init` on the resulting state, and a failing `init 3`. -/
theorem wsq_init_cases_witness :
    WorkStealingQueue.init (WorkStealingQueue.new Nat) 8 =
      (0, ⟨1, 8, [0, 0, 0, 0, 0, 0, 0, 0], 1⟩) ∧
    WorkStealingQueue.init (⟨1, 8, [0, 0, 0, 0, 0, 0, 0, 0], 1⟩ : WorkStealingQueue Nat) 8 =
      (-1, ⟨1, 8, [0, 0, 0, 0, 0, 0, 0, 0], 1⟩) ∧
    WorkStealingQueue.init (WorkStealingQueue.new Nat) 3 = (-1, WorkStealingQueue.new Nat) := by
  refine ⟨?_, ?_, ?_⟩
  · have h := (wsq_init_cases (WorkStealingQueue.new Nat) 8 0).2.1 rfl (by decide) ⟨3, rfl⟩
    rw [h]
    decide
  · exact (wsq_init_cases (⟨1, 8, [0, 0, 0, 0, 0, 0, 0, 0], 1⟩ : WorkStealingQueue Nat) 8
      0).1 (Or.inl (by decide))
  · exact (wsq_init_cases (WorkStealingQueue.new Nat) 3 0).1 (Or.inr (Or.inr three_not_pow2))

/- Sequential runs of queue operations, for the size-accounting and
invariant claims. -/

/-- One queue operation of a sequential history. -/
inductive QOp (α : Type) where
  | push (x : α)
  | pop
  | steal

/-- Outcome of running a history: final state, number of successful
pushes, number of successful pops and steals, and whether any push
failed. -/
structure RunResult (α : Type) where
  state : WorkStealingQueue α
  pushes : Nat
  takes : Nat
  pushFailed : Bool

/-- Run one operation, recording success counts. -/
def applyOp {α : Type} [Inhabited α] (q : WorkStealingQueue α) : QOp α → RunResult α
  | QOp.push x =>
      let r := q.push x
      { state := r.2, pushes := if r.1 then 1 else 0, takes := 0, pushFailed := !r.1 }
  | QOp.pop =>
      let r := q.pop
      { state := r.2, pushes := 0, takes := if (r.1).isSome then 1 else 0,
        pushFailed := false }
  | QOp.steal =>
      let r := q.steal
      { state := r.2, pushes := 0, takes := if (r.1).isSome then 1 else 0,
        pushFailed := false }

/-- Run a whole history left to right. -/
def runOps {α : Type} [Inhabited α] (q : WorkStealingQueue α) : List (QOp α) → RunResult α
  | [] => { state := q, pushes := 0, takes := 0, pushFailed := false }
  | op :: rest =>
      let s := applyOp q op
      let r := runOps s.state rest
      { state := r.state, pushes := s.pushes + r.pushes, takes := s.takes + r.takes,
        pushFailed := s.pushFailed || r.pushFailed }

/-- One operation that did not fail a push keeps `top ≤ bottom` and
changes `bottom − top` by exactly its success contribution. -/
theorem applyOp_step {α : Type} [Inhabited α] (q : WorkStealingQueue α) (op : QOp α)
    (hq : q.top ≤ q.bottom) (hf : (applyOp q op).pushFailed = false) :
    (applyOp q op).state.top ≤ (applyOp q op).state.bottom ∧
    ((applyOp q op).state.bottom : Int) - ((applyOp q op).state.top : Int)
      = ((q.bottom : Int) - (q.top : Int)) + (applyOp q op).pushes - (applyOp q op).takes := by
  cases op with
  | push x =>
    rcases Nat.lt_or_ge q.bottom (q.top + q.capacity) with h | h
    · simp only [applyOp, push_ok q x h]
      constructor
      · omega
      · push_cast
        omega
    · simp [applyOp, push_full q x h] at hf
  | pop =>
    rcases Nat.lt_or_ge q.top q.bottom with h | h
    · rcases Nat.lt_or_ge (q.top + 1) q.bottom with h2 | h2
      · simp only [applyOp, pop_multi q h2, Option.isSome]
        constructor
        · omega
        · push_cast
          omega
      · simp only [applyOp, pop_single q (by omega), Option.isSome]
        constructor
        · omega
        · push_cast
          omega
    · simp only [applyOp, pop_empty q (by omega), Option.isSome]
      constructor
      · omega
      · push_cast
        omega
  | steal =>
    rcases Nat.lt_or_ge q.top q.bottom with h | h
    · simp only [applyOp, steal_ok q h, Option.isSome]
      constructor
      · omega
      · push_cast
        omega
    · simp only [applyOp, steal_empty q (by omega), Option.isSome]
      constructor
      · omega
      · push_cast
        omega

/-- Over a whole push-failure-free history, `bottom − top` grows by the
number of successful pushes minus the number of successful takes. -/
theorem runOps_size {α : Type} [Inhabited α] (ops : List (QOp α)) :
    ∀ q : WorkStealingQueue α, q.top ≤ q.bottom → (runOps q ops).pushFailed = false →
      (runOps q ops).state.top ≤ (runOps q ops).state.bottom ∧
      ((runOps q ops).state.bottom : Int) - ((runOps q ops).state.top : Int)
        = ((q.bottom : Int) - (q.top : Int)) + (runOps q ops).pushes
            - (runOps q ops).takes := by
  induction ops with
  | nil =>
    intro q hq _
    simp only [runOps]
    exact ⟨hq, by push_cast; omega⟩
  | cons op rest ih =>
    intro q hq hf
    simp only [runOps] at hf ⊢
    rw [Bool.or_eq_false_iff] at hf
    have hstep := applyOp_step q op hq hf.1
    have hrec := ih (applyOp q op).state hstep.1 hf.2
    refine ⟨hrec.1, ?_⟩
    have h1 := hstep.2
    have h2 := hrec.2
    push_cast at h1 h2 ⊢
    omega

/-- Claim C5: `volatile_size` returns `max 0 (bottom − top)`, and over
any sequential history on a freshly initialized (hence empty) queue in
which no push fails, the final `volatile_size` equals the number of
successful pushes minus the number of successful pops and steals. -/
theorem wsq_volatile_size_spec {α : Type} [Inhabited α] :
    (∀ q : WorkStealingQueue α,
      (q.volatile_size : Int) = max 0 ((q.bottom : Int) - (q.top : Int))) ∧
    (∀ (q : WorkStealingQueue α) (ops : List (QOp α)),
      q.top = q.bottom → (runOps q ops).pushFailed = false →
      ((runOps q ops).state.volatile_size : Int)
        = ((runOps q ops).pushes : Int) - ((runOps q ops).takes : Int)) := by
  constructor
  · intro q
    simp only [WorkStealingQueue.volatile_size]
    rcases Nat.le_total q.bottom q.top with h | h
    · rw [if_pos h]
      omega
    · rcases Nat.lt_or_ge q.top q.bottom with h2 | h2
      · rw [if_neg (by omega)]
        omega
      · rw [if_pos (by omega)]
        omega
  · intro q ops h0 hf
    have h := runOps_size ops q (le_of_eq h0) hf
    simp only [WorkStealingQueue.volatile_size]
    rcases Nat.le_total (runOps q ops).state.bottom (runOps q ops).state.top with h1 | h1
    · rw [if_pos h1]
      have := h.2
      push_cast at this ⊢
      omega
    · rcases Nat.lt_or_ge (runOps q ops).state.top (runOps q ops).state.bottom with h2 | h2
      · rw [if_neg (by omega)]
        have := h.2
        push_cast at this ⊢
        omega
      · rw [if_pos (by omega)]
        have := h.2
        push_cast at this ⊢
        omega

/-- Witness for C5: three operations on a fresh capacity-2 queue, two
successful pushes and one successful pop. -/
theorem wsq_volatile_size_spec_witness :
    ((runOps (⟨1, 2, [0, 0], 1⟩ : WorkStealingQueue Nat)
        [QOp.push 5, QOp.push 6, QOp.pop]).state.volatile_size : Int)
      = ((runOps (⟨1, 2, [0, 0], 1⟩ : WorkStealingQueue Nat)
            [QOp.push 5, QOp.push 6, QOp.pop]).pushes : Int)
        - ((runOps (⟨1, 2, [0, 0], 1⟩ : WorkStealingQueue Nat)
            [QOp.push 5, QOp.push 6, QOp.pop]).takes : Int) :=
  wsq_volatile_size_spec.2 (⟨1, 2, [0, 0], 1⟩ : WorkStealingQueue Nat)
    [QOp.push 5, QOp.push 6, QOp.pop] rfl (by decide)

/-- Claim C6: the predicate `top ≤ bottom ∧ bottom − top ≤ capacity`
holds in the state left by `init` on a freshly constructed queue and is
preserved by every completed `push`, `pop` and `steal`. -/
theorem wsq_counter_invariant {α : Type} [Inhabited α] :
    (∀ c : Nat, WorkStealingQueue.CounterInv ((WorkStealingQueue.new α).init c).2) ∧
    (∀ (q : WorkStealingQueue α) (x : α),
      q.CounterInv → ((q.push x).2).CounterInv) ∧
    (∀ q : WorkStealingQueue α, q.CounterInv → ((q.pop).2).CounterInv) ∧
    (∀ q : WorkStealingQueue α, q.CounterInv → ((q.steal).2).CounterInv) := by
  refine ⟨?_, ?_, ?_, ?_⟩
  · intro c
    simp only [WorkStealingQueue.init, WorkStealingQueue.new, WorkStealingQueue.CounterInv]
    split_ifs <;> simp
  · intro q x hq
    obtain ⟨hq1, hq2⟩ := hq
    rcases Nat.lt_or_ge q.bottom (q.top + q.capacity) with h | h
    · simp only [WorkStealingQueue.CounterInv, push_ok q x h]
      omega
    · simp only [WorkStealingQueue.CounterInv, push_full q x h]
      omega
  · intro q hq
    obtain ⟨hq1, hq2⟩ := hq
    rcases Nat.lt_or_ge q.top q.bottom with h | h
    · rcases Nat.lt_or_ge (q.top + 1) q.bottom with h2 | h2
      · simp only [WorkStealingQueue.CounterInv, pop_multi q h2]
        omega
      · simp only [WorkStealingQueue.CounterInv, pop_single q (by omega : q.top + 1 = q.bottom)]
        omega
    · simp only [WorkStealingQueue.CounterInv, pop_empty q (by omega : q.bottom ≤ q.top)]
      omega
  · intro q hq
    obtain ⟨hq1, hq2⟩ := hq
    rcases Nat.lt_or_ge q.top q.bottom with h | h
    · simp only [WorkStealingQueue.CounterInv, steal_ok q h]
      omega
    · simp only [WorkStealingQueue.CounterInv, steal_empty q (by omega : q.bottom ≤ q.top)]
      omega

/-- Witness for C6: preservation through a concrete push. -/
theorem wsq_counter_invariant_witness :
    WorkStealingQueue.CounterInv
      ((WorkStealingQueue.push (⟨2, 2, [5, 6], 1⟩ : WorkStealingQueue Nat) 7).2) :=
  wsq_counter_invariant.2.1 (⟨2, 2, [5, 6], 1⟩ : WorkStealingQueue Nat) 7
    ⟨by decide, by decide⟩

/-- Counterexample to claim C7 as stated: on the reachable queue
obtained by `init 2; push 10; push 20`, a successful `pop` strictly
decreases `bottom`, so `bottom` is not monotonically increasing across
operations. -/
theorem wsq_bottom_decreases :
    (WorkStealingQueue.pop
        (((((WorkStealingQueue.new Nat).init 2).2.push 10).2.push 20).2)).1 = some 20 ∧
    (WorkStealingQueue.pop
        (((((WorkStealingQueue.new Nat).init 2).2.push 10).2.push 20).2)).2.bottom
      < (((((WorkStealingQueue.new Nat).init 2).2.push 10).2.push 20).2).bottom := by
  decide

/-- Claim C7 (amended): `top` never decreases across `push`, `pop` or
`steal`; `bottom` never decreases across `push` or `steal` (a successful
`pop` that is not taking the last item decreases `bottom` by one). -/
theorem wsq_monotone_amended {α : Type} [Inhabited α] (q : WorkStealingQueue α) (x : α) :
    q.top ≤ ((q.push x).2).top ∧ q.top ≤ ((q.pop).2).top ∧ q.top ≤ ((q.steal).2).top ∧
    q.bottom ≤ ((q.push x).2).bottom ∧ q.bottom ≤ ((q.steal).2).bottom := by
  have hpush : q.top ≤ ((q.push x).2).top ∧ q.bottom ≤ ((q.push x).2).bottom := by
    rcases Nat.lt_or_ge q.bottom (q.top + q.capacity) with h | h
    · simp only [push_ok q x h]
      omega
    · simp only [push_full q x h]
      omega
  have hpop : q.top ≤ ((q.pop).2).top := by
    rcases Nat.lt_or_ge q.top q.bottom with h | h
    · rcases Nat.lt_or_ge (q.top + 1) q.bottom with h2 | h2
      · simp only [pop_multi q h2]
        omega
      · simp only [pop_single q (by omega : q.top + 1 = q.bottom)]
        omega
    · simp only [pop_empty q (by omega : q.bottom ≤ q.top)]
      omega
  have hsteal : q.top ≤ ((q.steal).2).top ∧ q.bottom ≤ ((q.steal).2).bottom := by
    rcases Nat.lt_or_ge q.top q.bottom with h | h
    · simp only [steal_ok q h]
      omega
    · simp only [steal_empty q (by omega : q.bottom ≤ q.top)]
      omega
  exact ⟨hpush.1, hpop, hsteal.1, hpush.2, hsteal.2⟩

/-- Claim C10: on the never-initialized state left by the default
constructor (`bottom = top = 1`, `capacity = 0`, `NULL` buffer), every
operation is a safe no-op: `push` returns `false`, `pop` and `steal`
return nothing, `volatile_size` is `0`, and the state — the buffer
included — is untouched.  The statement quantifies over an arbitrary
buffer contents `buf`, so the results also do not depend on any read of
the (null) buffer. -/
theorem wsq_uninit_noop {α : Type} [Inhabited α] (buf : List α) (x : α) :
    WorkStealingQueue.push ⟨1, 0, buf, 1⟩ x = (false, (⟨1, 0, buf, 1⟩ : WorkStealingQueue α)) ∧
    WorkStealingQueue.pop (⟨1, 0, buf, 1⟩ : WorkStealingQueue α) = (none, ⟨1, 0, buf, 1⟩) ∧
    WorkStealingQueue.steal (⟨1, 0, buf, 1⟩ : WorkStealingQueue α) = (none, ⟨1, 0, buf, 1⟩) ∧
    WorkStealingQueue.volatile_size (⟨1, 0, buf, 1⟩ : WorkStealingQueue α) = 0 ∧
    WorkStealingQueue.new α = ⟨1, 0, [], 1⟩ :=
  ⟨push_full _ x (show 1 + 0 ≤ 1 by omega),
   pop_empty _ (show (1 : Nat) ≤ 1 by omega),
   steal_empty _ (show (1 : Nat) ≤ 1 by omega),
   rfl, rfl⟩

/- Context-switch rendezvous.  Only the declarations of
`bthread_make_fcontext` and `bthread_jump_fcontext` are present in the
repository sources (`src/bthread/context.h`); the per-architecture
assembly bodies are missing, so the semantics below is modelled from the
spec (§4.1): a switch suspends the caller and resumes the target,
delivering one machine word in each direction, and the suspended side is
resumed later by whoever switches back into it. -/

/-- Modelled from the spec: the behavior of a resumed execution context
(the assembly bodies of the context primitives are missing from the
sources).  A context that has just received a word either performs a
`bthread_jump_fcontext` back — transferring a word and leaving a
continuation awaiting its own next resumption — or runs to completion
with a final value. -/
inductive JumpAct where
  | jump (transfer : Int) (k : Int → JumpAct)
  | halt (r : Int)

/-- Modelled from the spec: a suspended context is a function awaiting
the word the next switch into it will transfer. -/
def FContext : Type := Int → JumpAct

/-- Modelled from the spec: `bthread_make_fcontext(sp, size, fn)` builds
a context whose first resumption runs `fn` on the transferred word (the
stack-carving performed by the missing assembly has no observable
counterpart at this level). -/
def bthread_make_fcontext (fn : Int → JumpAct) : FContext := fn

/-- Modelled from the spec: `bthread_jump_fcontext(&prev, target, v)`
resumes `target` with the word `v`. -/
def bthread_jump_fcontext (ctx : FContext) (v : Int) : JumpAct := ctx v

/-- Modelled from the spec: the two-context rendezvous, driven for
`fuel` switches: while the running side jumps, control passes to the
suspended peer together with the transferred word, and the jumping
side's continuation becomes the new suspended peer; a `halt` ends the
execution with its value. -/
def runSwitches : Nat → JumpAct → FContext → Option Int
  | _, JumpAct.halt r, _ => some r
  | 0, JumpAct.jump _ _, _ => none
  | fuel + 1, JumpAct.jump v k, peer =>
      runSwitches fuel (bthread_jump_fcontext peer v) k

/-- Claim C9 (spec-modelled): a caller that jumps into a context made
from an entry which immediately jumps back gets the entry's sentinel as
the return value of its own jump, and the entry ran on exactly the word
the caller transferred: with entry `fun arg => jump (f arg) k2` the
caller's jump returns `f x`, and with the constant sentinel entry it
returns `v`. -/
theorem fctx_roundtrip (x v : Int) (f : Int → Int) (k2 : Int → JumpAct) :
    runSwitches 2 (JumpAct.jump x (fun ret => JumpAct.halt ret))
      (bthread_make_fcontext (fun arg => JumpAct.jump (f arg) k2)) = some (f x) ∧
    runSwitches 2 (JumpAct.jump x (fun ret => JumpAct.halt ret))
      (bthread_make_fcontext (fun _ => JumpAct.jump v k2)) = some v := by
  constructor <;> rfl
